import Mathlib

/-!
# Verification of the AQL inspection-report field extractor

This file is a shallow embedding of the field-extraction core of
`src/app.py` (functions `extract_fields_from_pdf`, `process_multiple_pdfs`
and the schema-completion part of `create_excel_file`), together with
theorems settling the specification claims about it.

Strings are modelled as `List Char` (`Str`).  Python's `str.strip()` /
regex `\s` whitespace is modelled by its ASCII fragment (`isPySpace`),
which covers every character occurring in the extraction logic.  Each
regular expression used by the source is embedded as an explicit search
function with the same leftmost-match semantics (`reSearch`, `find6`,
`tokens`, …).
-/

abbrev Str := List Char

/-- Coerce a Lean string literal to the `List Char` representation. -/
def chars (s : String) : Str := s.toList

/-- ASCII fragment of Python's whitespace (`str.strip()` and regex `\s`). -/
def isPySpace (c : Char) : Bool :=
  c == ' ' || c == '\t' || c == '\n' || c == '\r' || c == '\x0b' || c == '\x0c'

/-- Python `str.strip()`: remove whitespace from both ends. -/
def strip (s : Str) : Str :=
  ((s.dropWhile isPySpace).reverse.dropWhile isPySpace).reverse

/-- Model of `re.sub(r'[,\s]+$', '', s)` and friends: drop trailing
characters satisfying `p`. -/
def stripTrailing (p : Char → Bool) (s : Str) : Str :=
  (s.reverse.dropWhile p).reverse

/-- Python `str.split(sep)` for a one-character separator. -/
def splitOnChar (sep : Char) : Str → List Str
  | [] => [[]]
  | c :: rest =>
    match splitOnChar sep rest with
    | [] => [[c]]
    | h :: t => if c == sep then [] :: h :: t else (c :: h) :: t

/-- Python `needle in hay` on strings: substring test. -/
def containsStr (hay needle : Str) : Bool :=
  match hay with
  | [] => needle.isEmpty
  | c :: t => needle.isPrefixOf (c :: t) || containsStr t needle

/-- Python `hay.find(needle)`: index of the first occurrence, `none` for `-1`. -/
def findSub (hay needle : Str) : Option Nat :=
  match hay with
  | [] => if needle.isEmpty then some 0 else none
  | c :: t =>
    if needle.isPrefixOf (c :: t) then some 0 else (findSub t needle).map (· + 1)

/-- Python `hay.find(c)` for one character. -/
def findChar (c : Char) (s : Str) : Option Nat := findSub s [c]

theorem dropWhile_length_le {α : Type} (p : α → Bool) (l : List α) :
    (l.dropWhile p).length ≤ l.length := by
  induction l with
  | nil => simp
  | cons c rest ih =>
    by_cases h : p c
    · simp only [List.dropWhile_cons_of_pos h]
      exact Nat.le_succ_of_le ih
    · simp [List.dropWhile_cons_of_neg h]

/-- Model of `re.findall(r'(cls+)', s)`: the maximal runs of characters satisfying
`cls`, in order of appearance.  (Structural formulation; the
takeWhile/dropWhile characterisation is `tokens_cons_pos` below.) -/
def tokens (cls : Char → Bool) : Str → List Str
  | [] => []
  | c :: rest =>
    if cls c then
      match rest.head? with
      | some r =>
        if cls r then
          match tokens cls rest with
          | t :: ts2 => (c :: t) :: ts2
          | [] => [[c]]
        else [c] :: tokens cls rest
      | none => [[c]]
    else tokens cls rest

theorem tokens_cons_neg (cls : Char → Bool) (c : Char) (rest : Str) (h : cls c = false) :
    tokens cls (c :: rest) = tokens cls rest := by
  simp [tokens, h]

/-- Maximal-run characterisation: a `cls`-character opens a run made of
the maximal `cls`-prefix, and scanning resumes after it — exactly
`re.findall`'s behaviour. -/
theorem tokens_cons_pos (cls : Char → Bool) :
    ∀ (rest : Str) (c : Char), cls c = true →
      tokens cls (c :: rest) = (c :: rest.takeWhile cls) :: tokens cls (rest.dropWhile cls) := by
  intro rest
  induction rest with
  | nil => intro c h; simp [tokens, h]
  | cons r rs ih =>
    intro c h
    by_cases hr : cls r
    · rw [show tokens cls (c :: r :: rs)
          = (match tokens cls (r :: rs) with
             | t :: ts2 => (c :: t) :: ts2
             | [] => [[c]]) from by simp [tokens, h, hr]]
      rw [ih r hr]
      simp [List.takeWhile_cons, List.dropWhile_cons, hr]
    · have hr2 : cls r = false := by simpa using hr
      rw [show tokens cls (c :: r :: rs) = [c] :: tokens cls (r :: rs) from by
        simp [tokens, h, hr2]]
      simp [List.takeWhile_cons, List.dropWhile_cons, hr2]

/-- Model of `re.search(r'(cls+)', s)` with access to `.end()`: the first maximal
run of `cls`-characters together with the remainder of the string after
the match. -/
def searchRun (cls : Char → Bool) (s : Str) : Option (Str × Str) :=
  match s.dropWhile (fun c => !cls c) with
  | [] => none
  | c :: rest => some (c :: rest.takeWhile cls, rest.dropWhile cls)

/-- First element of the list on which `f` succeeds (Python
`for x in xs: if f(x): ...; break`). -/
def firstSome {α β : Type} (f : α → Option β) : List α → Option β
  | [] => none
  | a :: r => match f a with | some b => some b | none => firstSome f r

/-- Model of `re.search(r'(\d{6})', s)`: leftmost position followed by six digits. -/
def find6 : Str → Option Str
  | [] => none
  | c :: rest =>
    if ((c :: rest).take 6).length == 6 && ((c :: rest).take 6).all Char.isDigit
    then some ((c :: rest).take 6) else find6 rest

/-- Suffix after the first `')'`, if any (helper for `re.sub(r'\([^)]*\)', …)`). -/
def splitAtClose : Str → Option Str
  | [] => none
  | c :: rest => if c == ')' then some rest else splitAtClose rest

theorem splitAtClose_length : ∀ {s r : Str}, splitAtClose s = some r → r.length < s.length := by
  intro s
  induction s with
  | nil => intro r h; simp [splitAtClose] at h
  | cons c rest ih =>
    intro r h
    simp only [splitAtClose] at h
    by_cases hc : c == ')'
    · simp [hc] at h
      subst h
      simp
    · simp [hc] at h
      exact Nat.lt_succ_of_lt (ih h)

/-- Model of `re.sub(r'\([^)]*\)', '', s)`: delete every parenthesised group
(a `'('` with no later `')'` is left in place). -/
def removeParens : Str → Str
  | [] => []
  | c :: rest =>
    if c == '(' then
      match h : splitAtClose rest with
      | some rest2 => removeParens rest2
      | none => c :: removeParens rest
    else c :: removeParens rest
termination_by s => s.length
decreasing_by
  · simp only [List.length_cons]
    exact Nat.lt_succ_of_lt (splitAtClose_length h)
  · simp
  · simp

/-- Pattern `\s*(cls+)` applied at a fixed position (used after a label
literal): skip whitespace, then capture a non-empty maximal `cls`-run. -/
def tokPat (cls : Char → Bool) (s : Str) : Option Str :=
  match (s.dropWhile isPySpace).takeWhile cls with
  | [] => none
  | c :: r => some (c :: r)

/-- Pattern `\s*([A-Za-z]{3}\s+\d{1,2},\s+\d{2})` applied at a fixed
position: the "Mon D, YY" shaped date of the source's regex, including
its backtracking behaviour (`\d{1,2}` must be followed by the comma,
`\d{2}` takes the first two of a longer digit run). -/
def datePat (s : Str) : Option Str :=
  let r := s.dropWhile isPySpace
  let letters := r.takeWhile Char.isAlpha
  if letters.length == 3 then
    let r2 := r.drop 3
    let ws := r2.takeWhile isPySpace
    if ws.isEmpty then none
    else
      let r3 := r2.dropWhile isPySpace
      let ds := r3.takeWhile Char.isDigit
      if (ds.length == 1 || ds.length == 2) && (r3.drop ds.length).head? == some ',' then
        let r4 := r3.drop (ds.length + 1)
        let ws2 := r4.takeWhile isPySpace
        if ws2.isEmpty then none
        else
          let r5 := r4.dropWhile isPySpace
          let ds2 := r5.takeWhile Char.isDigit
          if ds2.length ≥ 2 then some (letters ++ ws ++ ds ++ [','] ++ ws2 ++ ds2.take 2)
          else none
      else none
  else none

/-- Model of `re.search` for a pattern of the shape `label` followed by `pat`:
try every start position from the left; at each occurrence of the label
literal apply `pat` to the rest; the first success wins. -/
def reSearch (label : Str) (pat : Str → Option Str) : Str → Option Str
  | [] => none
  | c :: rest =>
    if label.isPrefixOf (c :: rest) then
      match pat ((c :: rest).drop label.length) with
      | some v => some v
      | none => reSearch label pat rest
    else reSearch label pat rest

/-! ## The extraction pipeline (`src/app.py`, lines 67-329) -/

/-- Line derivation `lines = [line.strip() for line in full_text.split('\n') if line.strip()]`
(app.py line 83): the canonical ordered sequence of trimmed non-empty lines. -/
def pdfLines (text : Str) : List Str :=
  ((splitOnChar '\n' text).map strip).filter (fun l => !l.isEmpty)

/-- Loop `for i, line in enumerate(lines): if <p line>: …; break` — the first
line satisfying `p`, together with the lines after it. -/
def findAnchorWith (p : Str → Bool) : List Str → Option (Str × List Str)
  | [] => none
  | l :: rest => if p l then some (l, rest) else findAnchorWith p rest

/-- Field 1 (app.py lines 91-97): `Inspection No\.\s*([A-Za-z0-9\-]+)`
searched on the first line containing "Inspection No.". -/
def inspectionNo (lines : List Str) : Option Str :=
  match findAnchorWith (fun l => containsStr l (chars "Inspection No.")) lines with
  | some (l, _) =>
    reSearch (chars "Inspection No.") (tokPat (fun c => c.isAlphanum || c == '-')) l
  | none => none

/-- Field 2 (app.py lines 99-105): `Inspection Seq\.\s*(\d+)` on the first
line containing "Inspection Seq.". -/
def inspectionSeq (lines : List Str) : Option Str :=
  match findAnchorWith (fun l => containsStr l (chars "Inspection Seq.")) lines with
  | some (l, _) => reSearch (chars "Inspection Seq.") (tokPat Char.isDigit) l
  | none => none

/-- Field 3 (app.py lines 110-116): the date regex on the first line
containing "Inspection Date". -/
def inspectionDate (lines : List Str) : Option Str :=
  match findAnchorWith (fun l => containsStr l (chars "Inspection Date")) lines with
  | some (l, _) => reSearch (chars "Inspection Date") datePat l
  | none => none

/-- Field 4 (app.py lines 118-126): first digit run on the line after the
first line containing "PO / Split No.". -/
def poSplitNo (lines : List Str) : Option Str :=
  match findAnchorWith (fun l => containsStr l (chars "PO / Split No.")) lines with
  | some (_, n :: _) => (tokens Char.isDigit n).head?
  | _ => none

/-- Field 5 (app.py lines 128-137): on the line after the first line
containing both "Style No." and "Item No.", take the first two
alphanumeric tokens (`re.findall(r'([A-Za-z0-9]+)', …)`); if fewer than
two, neither field is set. -/
def styleItem (lines : List Str) : Option Str × Option Str :=
  match findAnchorWith
      (fun l => containsStr l (chars "Style No.") && containsStr l (chars "Item No.")) lines with
  | some (_, n :: _) =>
    match tokens Char.isAlphanum n with
    | a :: b :: _ => (some a, some b)
    | _ => (none, none)
  | _ => (none, none)

/-- Field 6 (app.py lines 139-148): on the line after the anchor, delete
parenthesised groups, collect digit runs, take the second if at least two. -/
def deliveredQty (lines : List Str) : Option Str :=
  match findAnchorWith
      (fun l => containsStr l (chars "Delivered Quantity")
             || containsStr l (chars "Delivered Qty.")) lines with
  | some (_, n :: _) =>
    match tokens Char.isDigit (removeParens n) with
    | _ :: b :: _ => some b
    | _ => none
  | _ => none

/-- Field 7 (app.py lines 150-207): Customer / Dept / Factory / FID Code
from the line after the first line containing both "Customer / Dept" and
"Factory", in the order (customer, dept, factory, fid). -/
def customerDeptFactoryFid (lines : List Str) :
    Option Str × Option Str × Option Str × Option Str :=
  match findAnchorWith
      (fun l => containsStr l (chars "Customer / Dept") && containsStr l (chars "Factory")) lines with
  | some (_, next :: after1) =>
    match findChar '/' next with
    | some fs =>
      let customer := strip (next.take fs)
      let remaining := strip (next.drop (fs + 1))
      match searchRun (fun c => c.isDigit || c == '.') remaining with
      | some (dept, afterMatch) =>
        let afterDept := strip afterMatch
        let endPos := min afterDept.length
          (min ((findChar '/' afterDept).getD afterDept.length)
               ((findSub (afterDept.map Char.toLower) (chars "factory")).getD afterDept.length))
        let factoryName := stripTrailing (fun c => c == ',' || isPySpace c)
          (strip (afterDept.take endPos))
        let raf := strip (afterDept.drop endPos)
        let fid0 := if raf.contains '/' then firstSome find6 (splitOnChar '/' raf) else none
        let fid := match fid0 with
          | some v => some v
          | none => firstSome find6 (after1.take 4)
        (some customer, some dept, some factoryName, fid)
      | none => (some customer, none, none, none)
    | none => (none, none, none, none)
  | _ => (none, none, none, none)

/-- Field 8 (app.py lines 209-219): on the line after the first line
containing "Vendor" and "Vendor No."/"Vendor No", the part before the
first '/' (or the whole line), stripped. -/
def vendor (lines : List Str) : Option Str :=
  match findAnchorWith
      (fun l => containsStr l (chars "Vendor")
             && (containsStr l (chars "Vendor No.") || containsStr l (chars "Vendor No"))) lines with
  | some (_, n :: _) =>
    if n.contains '/' then some (strip ((splitOnChar '/' n).headD [])) else some (strip n)
  | _ => none

/-- Field 9, primary strategy (app.py lines 221-232): on the line after
the first line containing "Quality Digit", remove spaces, collect digit
runs; if the last run has length ≥ 3, its last three characters. -/
def qualityDigitAnchor (lines : List Str) : Option Str :=
  match findAnchorWith (fun l => containsStr l (chars "Quality Digit")) lines with
  | some (_, n :: _) =>
    match (tokens Char.isDigit (n.filter (fun c => c != ' '))).getLast? with
    | some lastRun =>
      if lastRun.length ≥ 3 then some (lastRun.drop (lastRun.length - 3)) else none
    | none => none
  | _ => none

/-- Model of `re.search(r'(\d{3})$', line.replace(' ', ''))` (app.py lines 238-239). -/
def aqlMatch (l : Str) : Option Str :=
  let c := l.filter (fun x => x != ' ')
  let t := c.reverse.take 3
  if t.length == 3 && t.all Char.isDigit then some t.reverse else none

/-- Field 9, fallback strategy (app.py lines 235-242).  Note: the `break`
sits inside `if match:`, so lines containing "AQL" whose space-stripped
text does not end in three digits are skipped and the scan continues. -/
def aqlScan : List Str → Option Str
  | [] => none
  | l :: rest =>
    if containsStr l (chars "AQL") then
      match aqlMatch l with
      | some v => some v
      | none => aqlScan rest
    else aqlScan rest

/-- Field 9, full chain (app.py lines 221-246): anchor strategy, then AQL
fallback, then the default constant "753". -/
def qualityDigit (lines : List Str) : Str :=
  match qualityDigitAnchor lines with
  | some v => v
  | none =>
    match aqlScan lines with
    | some v => v
    | none => chars "753"

/-- The key/value pairs of the `data` dict of `extract_fields_from_pdf`,
in insertion order; `none` means the key is not inserted. -/
def fieldPairs (name : Str) (lines : List Str) : List (String × Option Str) :=
  [("File Name", some name),
   ("Inspection No.", inspectionNo lines),
   ("Inspection Seq.", some ((inspectionSeq lines).getD (chars "1"))),
   ("Inspection Date", inspectionDate lines),
   ("PO / Split No.", poSplitNo lines),
   ("Style No.", (styleItem lines).1),
   ("Item No.", (styleItem lines).2),
   ("Delivered Quantity", deliveredQty lines),
   ("Customer", (customerDeptFactoryFid lines).1),
   ("Dept", (customerDeptFactoryFid lines).2.1),
   ("Factory", (customerDeptFactoryFid lines).2.2.1),
   ("FID Code", (customerDeptFactoryFid lines).2.2.2),
   ("Vendor", vendor lines),
   ("Quality Digit", some (qualityDigit lines))]

/-- Materialise the dict: keep exactly the inserted pairs, in order. -/
def toData (ps : List (String × Option Str)) : List (String × Str) :=
  ps.filterMap (fun p => p.2.map (fun v => (p.1, v)))

def noTextMsg : Str :=
  chars "No text content extracted. Please ensure PDF is text-based (not scanned)."

/-- Result of `extract_fields_from_pdf`: the `data` dict and the error
message (the extracted-text preview is irrelevant to the claims). -/
structure ExtractResult where
  data : List (String × Str)
  error : Option Str
deriving DecidableEq

/-- Function `extract_fields_from_pdf` (app.py lines 67-251) for a document with
identifier `name` and already-extracted page text `text`. -/
def extract_fields_from_pdf (name text : Str) : ExtractResult :=
  let lines := pdfLines text
  if lines.isEmpty then ⟨[], some noTextMsg⟩
  else ⟨toData (fieldPairs name lines), none⟩

/-- Function `process_multiple_pdfs` (app.py lines 253-283): sequentially process
the batch, collecting successful `data` dicts and error strings
`f"{name}: {error}"` in two order-preserving lists. -/
def process_multiple_pdfs : List (Str × Str) → List (List (String × Str)) × List Str
  | [] => ([], [])
  | (name, text) :: rest =>
    let r := extract_fields_from_pdf name text
    let p := process_multiple_pdfs rest
    match r.error with
    | some e => (p.1, (name ++ chars ": " ++ e) :: p.2)
    | none => (r.data :: p.1, p.2)

/-- Schema `required_fields` of `create_excel_file` (app.py lines 293-298): the
declared schema and output column order. -/
def required_fields : List String :=
  ["File Name", "Inspection No.", "Inspection Seq.", "Inspection Date",
   "PO / Split No.", "Style No.", "Item No.",
   "Delivered Quantity", "Customer", "Dept", "Factory",
   "FID Code", "Vendor", "Quality Digit"]

/-- Dict access `data.get(k)` on the association-list model. -/
def lookupKey (d : List (String × Str)) (k : String) : Option Str :=
  (d.find? (fun p => p.1 == k)).map Prod.snd

/-- The fill-in loop of `create_excel_file` (app.py lines 300-304):
`if field not in data: data[field] = ""`, in `required_fields` order. -/
def fillMissing (d : List (String × Str)) : List (String × Str) :=
  d ++ (required_fields.filter (fun f => (lookupKey d f).isNone)).map (fun f => (f, ([] : Str)))

/-- One row of `df[required_fields]` (app.py lines 306-308): the record
restricted to the schema columns, in declared order. -/
def finalRow (d : List (String × Str)) : List (String × Str) :=
  required_fields.map (fun f => (f, (lookupKey (fillMissing d) f).getD []))

/-- The schema-conformant Record the pipeline produces for one document. -/
def rowOf (name text : Str) : List (String × Str) :=
  finalRow (extract_fields_from_pdf name text).data

/-! ## Helper lemmas -/

theorem findAnchorWith_cons_pos (p : Str → Bool) (l : Str) (rest : List Str)
    (h : p l = true) : findAnchorWith p (l :: rest) = some (l, rest) := by
  simp [findAnchorWith, h]

theorem findAnchorWith_eq_none (p : Str → Bool) (ls : List Str)
    (h : ∀ l ∈ ls, p l = false) : findAnchorWith p ls = none := by
  induction ls with
  | nil => rfl
  | cons l rest ih =>
    have hl := h l (by simp)
    simp only [findAnchorWith, hl, Bool.false_eq_true, if_false]
    exact ih fun x hx => h x (by simp [hx])

theorem aqlScan_eq_none (ls : List Str)
    (h : ∀ l ∈ ls, containsStr l (chars "AQL") = false) : aqlScan ls = none := by
  induction ls with
  | nil => rfl
  | cons l rest ih =>
    have hl := h l (by simp)
    simp only [aqlScan, hl, Bool.false_eq_true, if_false]
    exact ih fun x hx => h x (by simp [hx])

theorem lookupKey_append (d1 d2 : List (String × Str)) (k : String) :
    lookupKey (d1 ++ d2) k = (lookupKey d1 k).or (lookupKey d2 k) := by
  simp only [lookupKey, List.find?_append]
  cases d1.find? (fun p => p.1 == k) <;> simp

theorem lookupKey_toData_not_mem (ps : List (String × Option Str)) (k : String)
    (h : k ∉ ps.map Prod.fst) : lookupKey (toData ps) k = none := by
  induction ps with
  | nil => rfl
  | cons p rest ih =>
    obtain ⟨k1, o⟩ := p
    simp only [List.map_cons, List.mem_cons, not_or] at h
    cases o with
    | none => simpa [toData, List.filterMap_cons] using ih h.2
    | some v =>
      simp only [toData, List.filterMap_cons, Option.map_some'] at *
      have hne : (k1 == k) = false := by
        simp only [beq_eq_false_iff_ne, ne_eq]
        exact fun hh => h.1 hh.symm
      simpa [lookupKey, List.find?, hne] using ih h.2

theorem toData_cons_some (k1 : String) (v : Str) (rest : List (String × Option Str)) :
    toData ((k1, some v) :: rest) = (k1, v) :: toData rest := by
  simp [toData, List.filterMap_cons]

theorem toData_cons_none (k1 : String) (rest : List (String × Option Str)) :
    toData ((k1, none) :: rest) = toData rest := by
  simp [toData, List.filterMap_cons]

theorem lookupKey_cons_pos (k1 : String) (v : Str) (d : List (String × Str)) (k : String)
    (h : (k1 == k) = true) : lookupKey ((k1, v) :: d) k = some v := by
  simp [lookupKey, List.find?, h]

theorem lookupKey_cons_neg (k1 : String) (v : Str) (d : List (String × Str)) (k : String)
    (h : (k1 == k) = false) : lookupKey ((k1, v) :: d) k = lookupKey d k := by
  simp [lookupKey, List.find?, h]

theorem lookupKey_toData (ps : List (String × Option Str)) (k : String)
    (hnd : (ps.map Prod.fst).Nodup) :
    lookupKey (toData ps) k = ((ps.find? (fun p => p.1 == k)).bind Prod.snd) := by
  induction ps with
  | nil => rfl
  | cons p rest ih =>
    obtain ⟨k1, o⟩ := p
    simp only [List.map_cons, List.nodup_cons] at hnd
    by_cases hk : k1 = k
    · subst hk
      have hbeq : (k1 == k1) = true := by simp
      cases o with
      | some v =>
        rw [toData_cons_some, lookupKey_cons_pos _ _ _ _ hbeq,
          show List.find? (fun p => p.1 == k1) ((k1, some v) :: rest) = some (k1, some v) from by
            simp [List.find?]]
        rfl
      | none =>
        have hnm : k1 ∉ rest.map Prod.fst := hnd.1
        rw [toData_cons_none,
          show List.find? (fun p => p.1 == k1) ((k1, (none : Option Str)) :: rest)
              = some (k1, none) from by simp [List.find?]]
        simpa using lookupKey_toData_not_mem rest k1 hnm
    · have hne : (k1 == k) = false := by simp [hk]
      have hfind : List.find? (fun p => p.1 == k) ((k1, o) :: rest)
          = List.find? (fun p => p.1 == k) rest := by simp [List.find?, hne]
      cases o with
      | some v =>
        rw [toData_cons_some, lookupKey_cons_neg _ _ _ _ hne, hfind]
        exact ih hnd.2
      | none =>
        rw [toData_cons_none, hfind]
        exact ih hnd.2

theorem toData_keys_subset (ps : List (String × Option Str)) :
    ∀ k ∈ (toData ps).map Prod.fst, k ∈ ps.map Prod.fst := by
  induction ps with
  | nil => simp [toData]
  | cons p rest ih =>
    obtain ⟨k1, o⟩ := p
    cases o with
    | some v =>
      rw [toData_cons_some]
      intro k hk
      simp only [List.map_cons, List.mem_cons] at hk ⊢
      cases hk with
      | inl h => exact Or.inl h
      | inr h => exact Or.inr (ih k h)
    | none =>
      rw [toData_cons_none]
      intro k hk
      simp only [List.map_cons, List.mem_cons]
      exact Or.inr (ih k hk)

theorem lookupKey_map_self (g : String → Str) (ks : List String) (k : String) (hk : k ∈ ks) :
    lookupKey (ks.map (fun f => (f, g f))) k = some (g k) := by
  induction ks with
  | nil => cases hk
  | cons a rest ih =>
    by_cases h : a = k
    · subst h
      exact lookupKey_cons_pos _ _ _ _ (by simp)
    · have hmem : k ∈ rest := by
        cases List.mem_cons.mp hk with
        | inl hh => exact absurd hh.symm h
        | inr hh => exact hh
      rw [List.map_cons, lookupKey_cons_neg _ _ _ _ (by simp [h])]
      exact ih hmem

theorem lookupKey_fillMissing (d : List (String × Str)) (k : String) (hk : k ∈ required_fields) :
    lookupKey (fillMissing d) k = some ((lookupKey d k).getD []) := by
  unfold fillMissing
  rw [lookupKey_append]
  cases h : lookupKey d k with
  | some v => simp
  | none =>
    simp only [Option.none_or, Option.getD_none]
    have : k ∈ required_fields.filter (fun f => (lookupKey d f).isNone) := by
      simp [List.mem_filter, hk, h]
    exact lookupKey_map_self (fun _ => []) _ k this

theorem lookupKey_finalRow (d : List (String × Str)) (k : String) (hk : k ∈ required_fields) :
    lookupKey (finalRow d) k = some ((lookupKey d k).getD []) := by
  unfold finalRow
  rw [lookupKey_map_self _ _ _ hk, lookupKey_fillMissing d k hk]
  simp

theorem finalRow_keys (d : List (String × Str)) :
    (finalRow d).map Prod.fst = required_fields := by
  simp only [finalRow, List.map_map]
  have hcomp : (Prod.fst ∘ fun f : String => (f, (lookupKey (fillMissing d) f).getD []))
      = id := by
    funext f
    rfl
  rw [hcomp, List.map_id]

theorem fieldPairs_keys (name : Str) (lines : List Str) :
    (fieldPairs name lines).map Prod.fst = required_fields := rfl

theorem required_fields_nodup : required_fields.Nodup := by decide

theorem extract_data_eq (name text : Str) (h : pdfLines text ≠ []) :
    (extract_fields_from_pdf name text).data = toData (fieldPairs name (pdfLines text)) := by
  unfold extract_fields_from_pdf
  simp [List.isEmpty_iff, h]

theorem extract_error_eq_none (name text : Str) (h : pdfLines text ≠ []) :
    (extract_fields_from_pdf name text).error = none := by
  unfold extract_fields_from_pdf
  simp [List.isEmpty_iff, h]

theorem rowOf_lookup (name text : Str) (k : String) (hk : k ∈ required_fields)
    (h : pdfLines text ≠ []) :
    lookupKey (rowOf name text) k
      = some ((lookupKey (toData (fieldPairs name (pdfLines text))) k).getD []) := by
  unfold rowOf
  rw [extract_data_eq name text h]
  exact lookupKey_finalRow _ _ hk

theorem fieldPairs_nodup (name : Str) (lines : List Str) :
    ((fieldPairs name lines).map Prod.fst).Nodup := by
  rw [fieldPairs_keys]
  exact required_fields_nodup

theorem data_qualityDigit (name : Str) (lines : List Str) :
    lookupKey (toData (fieldPairs name lines)) "Quality Digit" = some (qualityDigit lines) := by
  rw [lookupKey_toData _ _ (fieldPairs_nodup name lines)]
  rfl

theorem data_inspectionNo (name : Str) (lines : List Str) :
    lookupKey (toData (fieldPairs name lines)) "Inspection No." = inspectionNo lines := by
  rw [lookupKey_toData _ _ (fieldPairs_nodup name lines)]
  rfl

theorem data_inspectionSeq (name : Str) (lines : List Str) :
    lookupKey (toData (fieldPairs name lines)) "Inspection Seq."
      = some ((inspectionSeq lines).getD (chars "1")) := by
  rw [lookupKey_toData _ _ (fieldPairs_nodup name lines)]
  rfl

theorem data_inspectionDate (name : Str) (lines : List Str) :
    lookupKey (toData (fieldPairs name lines)) "Inspection Date" = inspectionDate lines := by
  rw [lookupKey_toData _ _ (fieldPairs_nodup name lines)]
  rfl

theorem data_styleNo (name : Str) (lines : List Str) :
    lookupKey (toData (fieldPairs name lines)) "Style No." = (styleItem lines).1 := by
  rw [lookupKey_toData _ _ (fieldPairs_nodup name lines)]
  rfl

theorem data_itemNo (name : Str) (lines : List Str) :
    lookupKey (toData (fieldPairs name lines)) "Item No." = (styleItem lines).2 := by
  rw [lookupKey_toData _ _ (fieldPairs_nodup name lines)]
  rfl

/-! ## Claims -/

/-- Claim C1, (confirmed): for every document whose text yields at least one
non-empty line, extraction succeeds (error is `none`) and the Record the
pipeline produces for it has keys exactly `required_fields` — the
declared FieldSchema, in declared order, never more, never fewer — with
every value present as a (possibly empty) string.  The raw `data` dict
never contains a key outside the schema, and the schema-completion step
supplies every missing one. -/
theorem c1_record_schema_exact (name text : Str) (h : pdfLines text ≠ []) :
    (extract_fields_from_pdf name text).error = none ∧
    (rowOf name text).map Prod.fst = required_fields ∧
    (∀ k ∈ ((extract_fields_from_pdf name text).data).map Prod.fst, k ∈ required_fields) ∧
    (∀ f ∈ required_fields, ∃ v : Str, lookupKey (rowOf name text) f = some v) := by
  refine ⟨extract_error_eq_none name text h, ?_, ?_, ?_⟩
  · unfold rowOf
    exact finalRow_keys _
  · intro k hk
    rw [extract_data_eq name text h] at hk
    have hsub := toData_keys_subset (fieldPairs name (pdfLines text)) k hk
    rwa [fieldPairs_keys] at hsub
  · intro f hf
    exact ⟨_, rowOf_lookup name text f hf h⟩

theorem c1_record_schema_exact_witness :
    pdfLines (chars "Inspection No. ABC") ≠ [] ∧
    ((extract_fields_from_pdf (chars "f") (chars "Inspection No. ABC")).error = none ∧
     (rowOf (chars "f") (chars "Inspection No. ABC")).map Prod.fst = required_fields ∧
     (∀ k ∈ ((extract_fields_from_pdf (chars "f") (chars "Inspection No. ABC")).data).map Prod.fst,
        k ∈ required_fields) ∧
     (∀ f ∈ required_fields, ∃ v : Str,
        lookupKey (rowOf (chars "f") (chars "Inspection No. ABC")) f = some v)) :=
  ⟨by decide, c1_record_schema_exact (chars "f") (chars "Inspection No. ABC") (by decide)⟩

/-- Claim C2, (confirmed): a document whose text contains no non-empty line
produces a per-document Failure carrying the no-content reason: the
`data` dict is empty (no Record), the error is the declared message, and
the batch continues with the remaining documents, receiving their
outcomes unchanged. -/
theorem c2_empty_text_failure (name text : Str) (rest : List (Str × Str))
    (h : pdfLines text = []) :
    (extract_fields_from_pdf name text).data = [] ∧
    (extract_fields_from_pdf name text).error = some noTextMsg ∧
    (process_multiple_pdfs ((name, text) :: rest)).1 = (process_multiple_pdfs rest).1 ∧
    (process_multiple_pdfs ((name, text) :: rest)).2
      = (name ++ chars ": " ++ noTextMsg) :: (process_multiple_pdfs rest).2 := by
  have hext : extract_fields_from_pdf name text = ⟨[], some noTextMsg⟩ := by
    unfold extract_fields_from_pdf
    simp [h]
  refine ⟨by rw [hext], by rw [hext], ?_, ?_⟩ <;>
    simp only [process_multiple_pdfs, hext]

theorem c2_empty_text_failure_witness :
    pdfLines (chars " \n\t ") = [] ∧
    ((extract_fields_from_pdf (chars "doc1") (chars " \n\t ")).data = [] ∧
     (extract_fields_from_pdf (chars "doc1") (chars " \n\t ")).error = some noTextMsg ∧
     (process_multiple_pdfs [((chars "doc1"), (chars " \n\t "))]).1
        = (process_multiple_pdfs []).1 ∧
     (process_multiple_pdfs [((chars "doc1"), (chars " \n\t "))]).2
        = (chars "doc1" ++ chars ": " ++ noTextMsg) :: (process_multiple_pdfs []).2) :=
  ⟨by decide, c2_empty_text_failure (chars "doc1") (chars " \n\t ") [] (by decide)⟩

/-- Claim C3, (corrected), counterexample: the claim "batch processing
produces exactly N outcomes, outcome[i] corresponding to document[i]"
fails on the code: for the two-document batch [failing "a", succeeding
"b"] the record list has length 1 ≠ 2, and its 0th record belongs to
document "b", not to document 0 ("a").  The code returns two separate
lists (records of successes, error strings of failures). -/
theorem c3_aligned_outcomes_cex :
    (process_multiple_pdfs
        [((chars "a"), (chars " ")), ((chars "b"), (chars "Quality Digit x"))]).1.length ≠ 2 ∧
    lookupKey ((process_multiple_pdfs
        [((chars "a"), (chars " ")), ((chars "b"), (chars "Quality Digit x"))]).1.headD [])
        "File Name" = some (chars "b") := by
  constructor
  · decide
  · decide

/-- Claim C3, (corrected), amended claim: batch processing produces exactly
one outcome per input document — `records.length + errors.length = N` —
where `records` is the order-preserving sublist of the `data` dicts of
the successful documents and `errors` the order-preserving sublist of
the failure messages `"<name>: <reason>"` of the failing ones; a single
index-aligned outcome sequence is not returned. -/
theorem c3_outcome_partition (files : List (Str × Str)) :
    process_multiple_pdfs files =
      (files.filterMap (fun ft =>
         match (extract_fields_from_pdf ft.1 ft.2).error with
         | none => some (extract_fields_from_pdf ft.1 ft.2).data
         | some _ => none),
       files.filterMap (fun ft =>
         match (extract_fields_from_pdf ft.1 ft.2).error with
         | some e => some (ft.1 ++ chars ": " ++ e)
         | none => none)) ∧
    (process_multiple_pdfs files).1.length + (process_multiple_pdfs files).2.length
      = files.length := by
  have hmain : ∀ fs : List (Str × Str), process_multiple_pdfs fs =
      (fs.filterMap (fun ft =>
         match (extract_fields_from_pdf ft.1 ft.2).error with
         | none => some (extract_fields_from_pdf ft.1 ft.2).data
         | some _ => none),
       fs.filterMap (fun ft =>
         match (extract_fields_from_pdf ft.1 ft.2).error with
         | some e => some (ft.1 ++ chars ": " ++ e)
         | none => none)) := by
    intro fs
    induction fs with
    | nil => rfl
    | cons ft rest ih =>
      obtain ⟨name, text⟩ := ft
      simp only [process_multiple_pdfs, ih, List.filterMap_cons]
      cases herr : (extract_fields_from_pdf name text).error <;> simp [herr]
  refine ⟨hmain files, ?_⟩
  induction files with
  | nil => rfl
  | cons ft rest ih =>
    obtain ⟨name, text⟩ := ft
    simp only [process_multiple_pdfs]
    cases herr : (extract_fields_from_pdf name text).error with
    | none =>
      simp only [List.length_cons]
      omega
    | some e =>
      simp only [List.length_cons]
      omega

/-- Claim C4, (corrected), counterexample: for the document whose anchor line
contains "Customer / Dept" and "Factory" and whose next line is
"ACME CO / 43.1 FACTORY NAME / 028288", the code does NOT yield
Factory = "FACTORY NAME": the factory-name scan stops at the first
occurrence of the (lower-cased) word "factory" after the Dept match,
which here is position 0 of the factory name itself, so the Record maps
Factory to the empty string. -/
theorem c4_composite_split_cex :
    lookupKey (rowOf (chars "f")
        (chars "Customer / Dept Factory\nACME CO / 43.1 FACTORY NAME / 028288"))
        "Factory" = some [] ∧
    ([] : Str) ≠ chars "FACTORY NAME" := by
  constructor
  · decide
  · decide

/-- Claim C4, (corrected), amended claim: for that document the extraction
yields Customer = "ACME CO", Dept = "43.1", FID Code = "028288" as the
original claim states, but Factory = "" (empty), because the value
line's factory name itself starts with the word "FACTORY", which the
code treats as the end marker of the factory-name segment. -/
theorem c4_composite_split_amended :
    lookupKey (rowOf (chars "f")
        (chars "Customer / Dept Factory\nACME CO / 43.1 FACTORY NAME / 028288"))
        "Customer" = some (chars "ACME CO") ∧
    lookupKey (rowOf (chars "f")
        (chars "Customer / Dept Factory\nACME CO / 43.1 FACTORY NAME / 028288"))
        "Dept" = some (chars "43.1") ∧
    lookupKey (rowOf (chars "f")
        (chars "Customer / Dept Factory\nACME CO / 43.1 FACTORY NAME / 028288"))
        "Factory" = some [] ∧
    lookupKey (rowOf (chars "f")
        (chars "Customer / Dept Factory\nACME CO / 43.1 FACTORY NAME / 028288"))
        "FID Code" = some (chars "028288") := by
  refine ⟨?_, ?_, ?_, ?_⟩ <;> decide

/-- Claim C5, (corrected), counterexample: the description window
"SZ 43145156 906730" contains two numeric tokens in order (43145156 and
906730), so under the claim Style No. would be "43145156"; but the code
collects *alphanumeric* tokens, so the Record maps Style No. to "SZ".
There is also no fallback to labeled lookup in the code. -/
theorem c5_style_item_cex :
    ((tokens Char.isAlphanum (chars "SZ 43145156 906730")).filter
        (fun t => t.all Char.isDigit))
      = [chars "43145156", chars "906730"] ∧
    lookupKey (rowOf (chars "f") (chars "Style No. Item No.\nSZ 43145156 906730"))
        "Style No." = some (chars "SZ") ∧
    chars "SZ" ≠ chars "43145156" := by
  refine ⟨?_, ?_, ?_⟩ <;> decide

/-- Claim C5, (corrected), amended claim: on the line following the first
line containing both "Style No." and "Item No.", the code takes the
first two *alphanumeric* tokens as Style No. and Item No.; if that line
carries fewer than two alphanumeric tokens, there is no fallback to any
independent labeled lookup — both fields are simply left unset, hence
empty in the final Record. -/
theorem c5_style_item_amended (l n : Str) (rest : List Str) (a b : Str) (ts : List Str)
    (hl : (containsStr l (chars "Style No.") && containsStr l (chars "Item No.")) = true) :
    (tokens Char.isAlphanum n = a :: b :: ts → styleItem (l :: n :: rest) = (some a, some b)) ∧
    ((tokens Char.isAlphanum n).length < 2 → styleItem (l :: n :: rest) = (none, none)) ∧
    ((tokens Char.isAlphanum n).length < 2 → ∀ name text : Str,
      pdfLines text = l :: n :: rest →
      lookupKey (rowOf name text) "Style No." = some [] ∧
      lookupKey (rowOf name text) "Item No." = some []) := by
  have hanchor : findAnchorWith
      (fun x => containsStr x (chars "Style No.") && containsStr x (chars "Item No."))
      (l :: n :: rest) = some (l, n :: rest) := findAnchorWith_cons_pos _ _ _ hl
  have hmat : styleItem (l :: n :: rest)
      = (match tokens Char.isAlphanum n with
         | a :: b :: _ => (some a, some b)
         | _ => (none, none)) := by
    unfold styleItem
    rw [hanchor]
  have hsi2 : (tokens Char.isAlphanum n).length < 2 → styleItem (l :: n :: rest) = (none, none) := by
    intro hlen
    rw [hmat]
    match htok : tokens Char.isAlphanum n with
    | [] => simp [htok]
    | [x] => simp [htok]
    | x :: y :: zs =>
      rw [htok] at hlen
      simp at hlen
      omega
  refine ⟨?_, hsi2, ?_⟩
  · intro htok
    rw [hmat]
    simp [htok]
  · intro hlen name text hlines
    have hne : pdfLines text ≠ [] := by
      rw [hlines]
      exact List.cons_ne_nil _ _
    have hsi := hsi2 hlen
    constructor
    · rw [rowOf_lookup name text _ (by decide) hne, data_styleNo, hlines, hsi]
      rfl
    · rw [rowOf_lookup name text _ (by decide) hne, data_itemNo, hlines, hsi]
      rfl

theorem c5_style_item_amended_witness :
    (containsStr (chars "Style No. Item No.") (chars "Style No.")
      && containsStr (chars "Style No. Item No.") (chars "Item No.")) = true ∧
    (tokens Char.isAlphanum (chars "43145156 906730")
      = [chars "43145156", chars "906730"]) ∧
    styleItem [chars "Style No. Item No.", chars "43145156 906730"]
      = (some (chars "43145156"), some (chars "906730")) :=
  ⟨by decide, by decide,
    (c5_style_item_amended (chars "Style No. Item No.") (chars "43145156 906730") []
      (chars "43145156") (chars "906730") [] (by decide)).1 (by decide)⟩

/-- Claim C6, (confirmed): in a document none of whose lines contains a
quality-indicator anchor — neither the "Quality Digit" anchor of the
primary strategy nor the "AQL" anchor of the fallback strategy — the
Record maps Quality Digit to the declared default constant "753", not to
the empty string. -/
theorem c6_quality_digit_default (name text : Str) (h : pdfLines text ≠ [])
    (hq : ∀ l ∈ pdfLines text, containsStr l (chars "Quality Digit") = false)
    (ha : ∀ l ∈ pdfLines text, containsStr l (chars "AQL") = false) :
    lookupKey (rowOf name text) "Quality Digit" = some (chars "753") ∧
    chars "753" ≠ ([] : Str) := by
  have hqd : qualityDigit (pdfLines text) = chars "753" := by
    unfold qualityDigit qualityDigitAnchor
    rw [findAnchorWith_eq_none _ _ hq, aqlScan_eq_none _ ha]
  constructor
  · rw [rowOf_lookup name text _ (by decide) h, data_qualityDigit, hqd]
    rfl
  · decide

theorem c6_quality_digit_default_witness :
    (pdfLines (chars "Inspection No. X1") ≠ [] ∧
     (∀ l ∈ pdfLines (chars "Inspection No. X1"),
        containsStr l (chars "Quality Digit") = false) ∧
     (∀ l ∈ pdfLines (chars "Inspection No. X1"), containsStr l (chars "AQL") = false)) ∧
    (lookupKey (rowOf (chars "f") (chars "Inspection No. X1")) "Quality Digit"
        = some (chars "753") ∧
     chars "753" ≠ ([] : Str)) :=
  ⟨⟨by decide, by decide, by decide⟩,
   c6_quality_digit_default (chars "f") (chars "Inspection No. X1")
     (by decide) (by decide) (by decide)⟩

/-- Claim C8, (confirmed): for the atomic labeled fields, whenever no value
is found the Record maps Inspection No. and Inspection Date to the
empty string, and Inspection Seq. — the single exception — to "1". -/
theorem c8_atomic_absent_defaults (name text : Str) (h : pdfLines text ≠ []) :
    (inspectionNo (pdfLines text) = none →
      lookupKey (rowOf name text) "Inspection No." = some []) ∧
    (inspectionDate (pdfLines text) = none →
      lookupKey (rowOf name text) "Inspection Date" = some []) ∧
    (inspectionSeq (pdfLines text) = none →
      lookupKey (rowOf name text) "Inspection Seq." = some (chars "1")) := by
  refine ⟨?_, ?_, ?_⟩
  · intro hn
    rw [rowOf_lookup name text _ (by decide) h, data_inspectionNo, hn]
    rfl
  · intro hn
    rw [rowOf_lookup name text _ (by decide) h, data_inspectionDate, hn]
    rfl
  · intro hn
    rw [rowOf_lookup name text _ (by decide) h, data_inspectionSeq, hn]
    rfl

theorem c8_atomic_absent_defaults_witness :
    (pdfLines (chars "Customer X") ≠ [] ∧
     inspectionNo (pdfLines (chars "Customer X")) = none ∧
     inspectionDate (pdfLines (chars "Customer X")) = none ∧
     inspectionSeq (pdfLines (chars "Customer X")) = none) ∧
    lookupKey (rowOf (chars "f") (chars "Customer X")) "Inspection No." = some [] ∧
    lookupKey (rowOf (chars "f") (chars "Customer X")) "Inspection Date" = some [] ∧
    lookupKey (rowOf (chars "f") (chars "Customer X")) "Inspection Seq." = some (chars "1") :=
  ⟨⟨by decide, by decide, by decide, by decide⟩,
   (c8_atomic_absent_defaults (chars "f") (chars "Customer X") (by decide)).1 (by decide),
   (c8_atomic_absent_defaults (chars "f") (chars "Customer X") (by decide)).2.1 (by decide),
   (c8_atomic_absent_defaults (chars "f") (chars "Customer X") (by decide)).2.2 (by decide)⟩

theorem dropWhile_idem (p : Char → Bool) (l : Str) :
    (l.dropWhile p).dropWhile p = l.dropWhile p := by
  induction l with
  | nil => rfl
  | cons c rest ih =>
    by_cases h : p c
    · rw [List.dropWhile_cons_of_pos h]
      exact ih
    · rw [List.dropWhile_cons_of_neg h, List.dropWhile_cons_of_neg h]

theorem dropWhile_eq_self_of_isPre (p : Char → Bool) {l t : Str}
    (hl : l.dropWhile p = l) (ht : t <+: l) : t.dropWhile p = t := by
  cases t with
  | nil => rfl
  | cons c t2 =>
    obtain ⟨s, hs⟩ := ht
    have hc : p c = false := by
      by_contra hcc
      have hc2 : p c = true := by
        cases hp : p c with
        | true => rfl
        | false => exact absurd hp hcc
      rw [← hs, List.cons_append, List.dropWhile_cons_of_pos hc2] at hl
      have hlen := dropWhile_length_le p (t2 ++ s)
      rw [hl] at hlen
      simp at hlen
    exact List.dropWhile_cons_of_neg (by simp [hc])

/-- Auxiliary: `strip` written as rear-drop of front-drop. -/
theorem strip_eq (s : Str) :
    strip s = ((s.dropWhile isPySpace).reverse.dropWhile isPySpace).reverse := rfl

theorem strip_pre_of_dropWhile (u : Str) :
    ((u.reverse.dropWhile isPySpace).reverse : Str) <+: u := by
  obtain ⟨t, ht⟩ := List.dropWhile_suffix (l := u.reverse) isPySpace
  refine ⟨t.reverse, ?_⟩
  rw [← List.reverse_append, ht, List.reverse_reverse]

theorem strip_idem (s : Str) : strip (strip s) = strip s := by
  have hF : (s.dropWhile isPySpace).dropWhile isPySpace = s.dropWhile isPySpace :=
    dropWhile_idem _ _
  set u := s.dropWhile isPySpace with hu
  have hR : ((u.reverse.dropWhile isPySpace).reverse : Str) <+: u :=
    strip_pre_of_dropWhile u
  have hfix : (((u.reverse.dropWhile isPySpace).reverse : Str)).dropWhile isPySpace
      = (u.reverse.dropWhile isPySpace).reverse :=
    dropWhile_eq_self_of_isPre _ hF hR
  rw [strip_eq (strip s), strip_eq s, ← hu, hfix, List.reverse_reverse,
    dropWhile_idem]

theorem strip_eq_nil_of_all_space (s : Str) (h : ∀ c ∈ s, isPySpace c = true) :
    strip s = [] := by
  rw [strip_eq, List.dropWhile_eq_nil_iff.mpr h]
  rfl

theorem splitOnChar_ne_nil (sep : Char) (s : Str) : splitOnChar sep s ≠ [] := by
  cases s with
  | nil => simp [splitOnChar]
  | cons c rest =>
    simp only [splitOnChar]
    cases splitOnChar sep rest with
    | nil => simp
    | cons h t =>
      by_cases hc : c == sep
      · simp [hc]
      · simp [hc]

theorem splitOnChar_chars_subset (sep : Char) (s : Str) :
    ∀ piece ∈ splitOnChar sep s, ∀ c ∈ piece, c ∈ s := by
  induction s with
  | nil =>
    intro piece hp c hc
    simp only [splitOnChar, List.mem_singleton] at hp
    subst hp
    cases hc
  | cons a rest ih =>
    intro piece hp c hc
    simp only [splitOnChar] at hp
    cases hsp : splitOnChar sep rest with
    | nil => exact absurd hsp (splitOnChar_ne_nil sep rest)
    | cons h2 t2 =>
      rw [hsp] at hp
      by_cases ha : a == sep
      · simp only [ha, if_true, List.mem_cons] at hp
        rcases hp with hpe | hpe | hpe
        · subst hpe
          cases hc
        · have := ih piece (by rw [hsp]; exact hpe ▸ List.mem_cons_self _ _) c hc
          exact List.mem_cons_of_mem _ this
        · have := ih piece (by rw [hsp]; exact List.mem_cons_of_mem _ hpe) c hc
          exact List.mem_cons_of_mem _ this
      · simp only [ha, if_false, List.mem_cons, Bool.false_eq_true] at hp
        rcases hp with hpe | hpe
        · subst hpe
          simp only [List.mem_cons] at hc
          rcases hc with hce | hce
          · exact hce ▸ List.mem_cons_self _ _
          · have := ih h2 (by rw [hsp]; exact List.mem_cons_self _ _) c hce
            exact List.mem_cons_of_mem _ this
        · have := ih piece (by rw [hsp]; exact List.mem_cons_of_mem _ hpe) c hc
          exact List.mem_cons_of_mem _ this

/-- Claim C7, (corrected), counterexample: the code's normalization does not
collapse tabs to spaces and does not remove soft hyphens (U+00AD): for
the input "a<TAB>b<SOFT-HYPHEN>c" the derived line still contains both
characters, which would be impossible if they were collapsed/removed as
the claim states. -/
theorem c7_normalization_cex :
    pdfLines (chars "a\tb\u00ADc") = [chars "a\tb\u00ADc"] ∧
    '\t' ∈ chars "a\tb\u00ADc" ∧
    '\u00AD' ∈ chars "a\tb\u00ADc" := by
  refine ⟨?_, ?_, ?_⟩ <;> decide

/-- Claim C7, (corrected), amended claim: normalization splits the raw text
on newlines, trims whitespace from both ends of each line, and drops the
blank lines; interior tabs/carriage returns and soft hyphens are kept
as-is.  It never fails, every derived line is non-empty and already
trimmed, and an empty or whitespace-only input yields the empty line
sequence. -/
theorem c7_normalization_amended (s : Str) :
    ((∀ c ∈ s, isPySpace c = true) → pdfLines s = []) ∧
    (∀ l ∈ pdfLines s, l ≠ [] ∧ strip l = l) := by
  constructor
  · intro hws
    unfold pdfLines
    apply List.filter_eq_nil_iff.mpr
    intro l hl
    simp only [List.mem_map] at hl
    obtain ⟨piece, hpm, hpe⟩ := hl
    have hall : ∀ c ∈ piece, isPySpace c = true := by
      intro c hcm
      exact hws c (splitOnChar_chars_subset '\n' s piece hpm c hcm)
    rw [← hpe, strip_eq_nil_of_all_space piece hall]
    simp
  · intro l hl
    unfold pdfLines at hl
    have hl2 := List.mem_filter.mp hl
    obtain ⟨hmap, hne⟩ := hl2
    simp only [List.mem_map] at hmap
    obtain ⟨piece, _, hpe⟩ := hmap
    constructor
    · intro hemp
      rw [hemp] at hne
      simp at hne
    · rw [← hpe]
      exact strip_idem piece

theorem c7_normalization_amended_witness :
    (∀ c ∈ chars " \t\x0c ", isPySpace c = true) ∧
    pdfLines (chars " \t\x0c ") = [] ∧
    (chars "a" ∈ pdfLines (chars " a \nb") ∧
     (chars "a" ≠ [] ∧ strip (chars "a") = chars "a")) :=
  ⟨by decide, (c7_normalization_amended (chars " \t\x0c ")).1 (by decide),
   by decide, (c7_normalization_amended (chars " a \nb")).2 (chars "a") (by decide)⟩

/-- Claim C9, (corrected), counterexample: the first line containing the
"AQL" anchor is "AQL 12", whose extraction fails (its space-stripped
text does not end in three digits); under the claim no later "AQL" line
may be consulted, so Quality Digit would fall through to the default
"753" — but the code scans on and extracts "999" from the later line
"AQL999". -/
theorem c9_first_anchor_cex :
    containsStr (chars "AQL 12") (chars "AQL") = true ∧
    aqlMatch (chars "AQL 12") = none ∧
    pdfLines (chars "AQL 12\nAQL999") = [chars "AQL 12", chars "AQL999"] ∧
    lookupKey (rowOf (chars "f") (chars "AQL 12\nAQL999")) "Quality Digit"
      = some (chars "999") ∧
    chars "999" ≠ chars "753" := by
  refine ⟨?_, ?_, ?_, ?_, ?_⟩ <;> decide

/-- Claim C9, (corrected), amended claim: for every field, the anchor scan
stops at the first line containing the field's label — once the head
line contains the label, the outcome does not depend on the later lines
(for the composite Customer/Dept/Factory/FID field, on anything beyond
its fixed four-line FID window) — even when value extraction at that
anchor fails; with one exception: the AQL fallback of Quality Digit
skips an "AQL" line whose extraction fails and continues scanning the
remaining lines. -/
theorem c9_first_anchor_amended :
    (∀ (l : Str) (r r2 : List Str), containsStr l (chars "Inspection No.") = true →
       inspectionNo (l :: r) = inspectionNo (l :: r2)) ∧
    (∀ (l : Str) (r r2 : List Str), containsStr l (chars "Inspection Seq.") = true →
       inspectionSeq (l :: r) = inspectionSeq (l :: r2)) ∧
    (∀ (l : Str) (r r2 : List Str), containsStr l (chars "Inspection Date") = true →
       inspectionDate (l :: r) = inspectionDate (l :: r2)) ∧
    (∀ (l n : Str) (r r2 : List Str), containsStr l (chars "PO / Split No.") = true →
       poSplitNo (l :: n :: r) = poSplitNo (l :: n :: r2)) ∧
    (∀ (l n : Str) (r r2 : List Str),
       (containsStr l (chars "Style No.") && containsStr l (chars "Item No.")) = true →
       styleItem (l :: n :: r) = styleItem (l :: n :: r2)) ∧
    (∀ (l n : Str) (r r2 : List Str),
       (containsStr l (chars "Delivered Quantity")
         || containsStr l (chars "Delivered Qty.")) = true →
       deliveredQty (l :: n :: r) = deliveredQty (l :: n :: r2)) ∧
    (∀ (l n : Str) (r : List Str),
       (containsStr l (chars "Customer / Dept") && containsStr l (chars "Factory")) = true →
       customerDeptFactoryFid (l :: n :: r) = customerDeptFactoryFid (l :: n :: r.take 4)) ∧
    (∀ (l n : Str) (r r2 : List Str),
       (containsStr l (chars "Vendor")
         && (containsStr l (chars "Vendor No.") || containsStr l (chars "Vendor No"))) = true →
       vendor (l :: n :: r) = vendor (l :: n :: r2)) ∧
    (∀ (l n : Str) (r r2 : List Str), containsStr l (chars "Quality Digit") = true →
       qualityDigitAnchor (l :: n :: r) = qualityDigitAnchor (l :: n :: r2)) ∧
    (∀ (l : Str) (r : List Str), containsStr l (chars "AQL") = true → aqlMatch l = none →
       aqlScan (l :: r) = aqlScan r) := by
  refine ⟨?_, ?_, ?_, ?_, ?_, ?_, ?_, ?_, ?_, ?_⟩
  · intro l r r2 h
    have h1 : findAnchorWith (fun l => containsStr l (chars "Inspection No.")) (l :: r)
        = some (l, r) := findAnchorWith_cons_pos _ _ _ h
    have h2 : findAnchorWith (fun l => containsStr l (chars "Inspection No.")) (l :: r2)
        = some (l, r2) := findAnchorWith_cons_pos _ _ _ h
    simp only [inspectionNo, h1, h2]
  · intro l r r2 h
    have h1 : findAnchorWith (fun l => containsStr l (chars "Inspection Seq.")) (l :: r)
        = some (l, r) := findAnchorWith_cons_pos _ _ _ h
    have h2 : findAnchorWith (fun l => containsStr l (chars "Inspection Seq.")) (l :: r2)
        = some (l, r2) := findAnchorWith_cons_pos _ _ _ h
    simp only [inspectionSeq, h1, h2]
  · intro l r r2 h
    have h1 : findAnchorWith (fun l => containsStr l (chars "Inspection Date")) (l :: r)
        = some (l, r) := findAnchorWith_cons_pos _ _ _ h
    have h2 : findAnchorWith (fun l => containsStr l (chars "Inspection Date")) (l :: r2)
        = some (l, r2) := findAnchorWith_cons_pos _ _ _ h
    simp only [inspectionDate, h1, h2]
  · intro l n r r2 h
    have h1 : findAnchorWith (fun l => containsStr l (chars "PO / Split No.")) (l :: n :: r)
        = some (l, n :: r) := findAnchorWith_cons_pos _ _ _ h
    have h2 : findAnchorWith (fun l => containsStr l (chars "PO / Split No.")) (l :: n :: r2)
        = some (l, n :: r2) := findAnchorWith_cons_pos _ _ _ h
    simp only [poSplitNo, h1, h2]
  · intro l n r r2 h
    have h1 : findAnchorWith
        (fun l => containsStr l (chars "Style No.") && containsStr l (chars "Item No."))
        (l :: n :: r) = some (l, n :: r) := findAnchorWith_cons_pos _ _ _ h
    have h2 : findAnchorWith
        (fun l => containsStr l (chars "Style No.") && containsStr l (chars "Item No."))
        (l :: n :: r2) = some (l, n :: r2) := findAnchorWith_cons_pos _ _ _ h
    simp only [styleItem, h1, h2]
  · intro l n r r2 h
    have h1 : findAnchorWith
        (fun l => containsStr l (chars "Delivered Quantity")
               || containsStr l (chars "Delivered Qty."))
        (l :: n :: r) = some (l, n :: r) := findAnchorWith_cons_pos _ _ _ h
    have h2 : findAnchorWith
        (fun l => containsStr l (chars "Delivered Quantity")
               || containsStr l (chars "Delivered Qty."))
        (l :: n :: r2) = some (l, n :: r2) := findAnchorWith_cons_pos _ _ _ h
    simp only [deliveredQty, h1, h2]
  · intro l n r h
    have h1 : findAnchorWith
        (fun l => containsStr l (chars "Customer / Dept") && containsStr l (chars "Factory"))
        (l :: n :: r) = some (l, n :: r) := findAnchorWith_cons_pos _ _ _ h
    have h2 : findAnchorWith
        (fun l => containsStr l (chars "Customer / Dept") && containsStr l (chars "Factory"))
        (l :: n :: r.take 4) = some (l, n :: r.take 4) := findAnchorWith_cons_pos _ _ _ h
    simp only [customerDeptFactoryFid, h1, h2, List.take_take, Nat.min_self]
  · intro l n r r2 h
    have h1 : findAnchorWith
        (fun l => containsStr l (chars "Vendor")
               && (containsStr l (chars "Vendor No.") || containsStr l (chars "Vendor No")))
        (l :: n :: r) = some (l, n :: r) := findAnchorWith_cons_pos _ _ _ h
    have h2 : findAnchorWith
        (fun l => containsStr l (chars "Vendor")
               && (containsStr l (chars "Vendor No.") || containsStr l (chars "Vendor No")))
        (l :: n :: r2) = some (l, n :: r2) := findAnchorWith_cons_pos _ _ _ h
    simp only [vendor, h1, h2]
  · intro l n r r2 h
    have h1 : findAnchorWith (fun l => containsStr l (chars "Quality Digit")) (l :: n :: r)
        = some (l, n :: r) := findAnchorWith_cons_pos _ _ _ h
    have h2 : findAnchorWith (fun l => containsStr l (chars "Quality Digit")) (l :: n :: r2)
        = some (l, n :: r2) := findAnchorWith_cons_pos _ _ _ h
    simp only [qualityDigitAnchor, h1, h2]
  · intro l r h hm
    simp only [aqlScan, h, if_true, hm]

theorem c9_first_anchor_amended_witness :
    (containsStr (chars "Inspection No.") (chars "Inspection No.") = true ∧
     inspectionNo [chars "Inspection No.", chars "Inspection No. AB1"]
       = inspectionNo [chars "Inspection No."]) ∧
    (containsStr (chars "Inspection Seq.") (chars "Inspection Seq.") = true ∧
     inspectionSeq [chars "Inspection Seq.", chars "Inspection Seq. 7"]
       = inspectionSeq [chars "Inspection Seq."]) ∧
    (containsStr (chars "Inspection Date") (chars "Inspection Date") = true ∧
     inspectionDate [chars "Inspection Date", chars "Inspection Date Sep 23, 25"]
       = inspectionDate [chars "Inspection Date"]) ∧
    (containsStr (chars "PO / Split No.") (chars "PO / Split No.") = true ∧
     poSplitNo [chars "PO / Split No.", chars "x", chars "PO / Split No.", chars "9"]
       = poSplitNo [chars "PO / Split No.", chars "x"]) ∧
    ((containsStr (chars "Style No. Item No.") (chars "Style No.")
       && containsStr (chars "Style No. Item No.") (chars "Item No.")) = true ∧
     styleItem [chars "Style No. Item No.", chars "-", chars "Style No. Item No.", chars "1 2"]
       = styleItem [chars "Style No. Item No.", chars "-"]) ∧
    ((containsStr (chars "Delivered Quantity") (chars "Delivered Quantity")
       || containsStr (chars "Delivered Quantity") (chars "Delivered Qty.")) = true ∧
     deliveredQty [chars "Delivered Quantity", chars "7", chars "Delivered Quantity", chars "1 2"]
       = deliveredQty [chars "Delivered Quantity", chars "7"]) ∧
    ((containsStr (chars "Customer / Dept Factory") (chars "Customer / Dept")
       && containsStr (chars "Customer / Dept Factory") (chars "Factory")) = true ∧
     customerDeptFactoryFid [chars "Customer / Dept Factory", chars "A / 1 B",
         chars "c", chars "d", chars "e", chars "f", chars "extra 123456"]
       = customerDeptFactoryFid ((chars "Customer / Dept Factory") :: (chars "A / 1 B")
           :: ([chars "c", chars "d", chars "e", chars "f", chars "extra 123456"].take 4))) ∧
    ((containsStr (chars "Vendor No.") (chars "Vendor")
       && (containsStr (chars "Vendor No.") (chars "Vendor No.")
         || containsStr (chars "Vendor No.") (chars "Vendor No"))) = true ∧
     vendor [chars "Vendor No.", chars "V / 1", chars "Vendor No.", chars "W"]
       = vendor [chars "Vendor No.", chars "V / 1"]) ∧
    (containsStr (chars "Quality Digit") (chars "Quality Digit") = true ∧
     qualityDigitAnchor [chars "Quality Digit", chars "ab", chars "Quality Digit", chars "777"]
       = qualityDigitAnchor [chars "Quality Digit", chars "ab"]) ∧
    (containsStr (chars "AQL 12") (chars "AQL") = true ∧
     aqlMatch (chars "AQL 12") = none ∧
     aqlScan [chars "AQL 12", chars "AQL999"] = aqlScan [chars "AQL999"]) :=
  ⟨⟨by decide, c9_first_anchor_amended.1 (chars "Inspection No.")
      [chars "Inspection No. AB1"] [] (by decide)⟩,
   ⟨by decide, c9_first_anchor_amended.2.1 (chars "Inspection Seq.")
      [chars "Inspection Seq. 7"] [] (by decide)⟩,
   ⟨by decide, c9_first_anchor_amended.2.2.1 (chars "Inspection Date")
      [chars "Inspection Date Sep 23, 25"] [] (by decide)⟩,
   ⟨by decide, c9_first_anchor_amended.2.2.2.1 (chars "PO / Split No.") (chars "x")
      [chars "PO / Split No.", chars "9"] [] (by decide)⟩,
   ⟨by decide, c9_first_anchor_amended.2.2.2.2.1 (chars "Style No. Item No.") (chars "-")
      [chars "Style No. Item No.", chars "1 2"] [] (by decide)⟩,
   ⟨by decide, c9_first_anchor_amended.2.2.2.2.2.1 (chars "Delivered Quantity") (chars "7")
      [chars "Delivered Quantity", chars "1 2"] [] (by decide)⟩,
   ⟨by decide, c9_first_anchor_amended.2.2.2.2.2.2.1 (chars "Customer / Dept Factory")
      (chars "A / 1 B")
      [chars "c", chars "d", chars "e", chars "f", chars "extra 123456"] (by decide)⟩,
   ⟨by decide, c9_first_anchor_amended.2.2.2.2.2.2.2.1 (chars "Vendor No.") (chars "V / 1")
      [chars "Vendor No.", chars "W"] [] (by decide)⟩,
   ⟨by decide, c9_first_anchor_amended.2.2.2.2.2.2.2.2.1 (chars "Quality Digit") (chars "ab")
      [chars "Quality Digit", chars "777"] [] (by decide)⟩,
   by decide, by decide,
   c9_first_anchor_amended.2.2.2.2.2.2.2.2.2 (chars "AQL 12")
      [chars "AQL999"] (by decide) (by decide)⟩

theorem tokens_all (cls : Char → Bool) :
    ∀ (s : Str), ∀ t ∈ tokens cls s, t.all cls = true := by
  intro s
  induction s with
  | nil => intro t ht; cases ht
  | cons c rest ih =>
    intro t ht
    by_cases hc : cls c
    · cases rest with
      | nil =>
        have he : tokens cls [c] = [[c]] := by simp [tokens, hc]
        rw [he] at ht
        simp only [List.mem_singleton] at ht
        subst ht
        simp [hc]
      | cons r rs =>
        by_cases hr : cls r
        · have he : tokens cls (c :: r :: rs)
              = (match tokens cls (r :: rs) with
                 | t1 :: ts2 => (c :: t1) :: ts2
                 | [] => [[c]]) := by
            simp [tokens, hc, hr]
          rw [he] at ht
          cases htk : tokens cls (r :: rs) with
          | nil =>
            simp only [htk, List.mem_singleton] at ht
            subst ht
            simp [hc]
          | cons t1 ts2 =>
            simp only [htk, List.mem_cons] at ht
            rcases ht with ht | ht
            · subst ht
              rw [List.all_cons, hc, Bool.true_and]
              exact ih t1 (htk ▸ List.mem_cons_self _ _)
            · exact ih t (htk ▸ List.mem_cons_of_mem _ ht)
        · have hr2 : cls r = false := by simpa using hr
          have he : tokens cls (c :: r :: rs) = [c] :: tokens cls (r :: rs) := by
            simp [tokens, hc, hr2]
          rw [he] at ht
          simp only [List.mem_cons] at ht
          rcases ht with ht | ht
          · subst ht
            simp [hc]
          · exact ih t ht
    · have hc2 : cls c = false := by simpa using hc
      rw [tokens_cons_neg cls c rest hc2] at ht
      exact ih t ht

theorem aqlMatch_shape {l v : Str} (h : aqlMatch l = some v) :
    v.length = 3 ∧ v.all Char.isDigit = true := by
  simp only [aqlMatch] at h
  by_cases hg : (((l.filter (fun x => x != ' ')).reverse.take 3).length == 3
      && ((l.filter (fun x => x != ' ')).reverse.take 3).all Char.isDigit) = true
  · rw [if_pos hg] at h
    injection h with hv
    obtain ⟨h3, hd⟩ := Bool.and_eq_true_iff.mp hg
    subst hv
    constructor
    · rw [List.length_reverse]
      exact Nat.beq_eq_true_eq _ _ ▸ h3
    · rw [List.all_reverse]
      exact hd
  · rw [if_neg hg] at h
    cases h

theorem aqlScan_shape : ∀ (ls : List Str) (v : Str), aqlScan ls = some v →
    v.length = 3 ∧ v.all Char.isDigit = true := by
  intro ls
  induction ls with
  | nil => intro v h; cases h
  | cons l rest ih =>
    intro v h
    simp only [aqlScan] at h
    by_cases hc : containsStr l (chars "AQL") = true
    · rw [if_pos hc] at h
      cases hm : aqlMatch l with
      | some w =>
        rw [hm] at h
        injection h with hv
        subst hv
        exact aqlMatch_shape hm
      | none =>
        rw [hm] at h
        exact ih v h
    · rw [if_neg hc] at h
      exact ih v h

theorem qualityDigitAnchor_shape {lines : List Str} {v : Str}
    (h : qualityDigitAnchor lines = some v) :
    v.length = 3 ∧ v.all Char.isDigit = true := by
  unfold qualityDigitAnchor at h
  cases ha : findAnchorWith (fun l => containsStr l (chars "Quality Digit")) lines with
  | none => rw [ha] at h; cases h
  | some pr =>
    obtain ⟨l0, rest0⟩ := pr
    cases rest0 with
    | nil => rw [ha] at h; cases h
    | cons n rest1 =>
      rw [ha] at h
      cases hlast : (tokens Char.isDigit (n.filter (fun c => c != ' '))).getLast? with
      | none => simp only [hlast] at h; cases h
      | some lastRun =>
        simp only [hlast] at h
        by_cases hlen : lastRun.length ≥ 3
        · rw [if_pos hlen] at h
          injection h with hv
          subst hv
          have hall := tokens_all Char.isDigit (n.filter (fun c => c != ' '))
            lastRun (List.mem_of_mem_getLast? hlast)
          constructor
          · rw [List.length_drop]
            omega
          · rw [List.all_eq_true] at hall ⊢
            intro x hx
            exact hall x (List.mem_of_mem_drop hx)
        · rw [if_neg hlen] at h
          cases h

theorem qualityDigit_shape (lines : List Str) :
    (qualityDigit lines).length = 3 ∧ (qualityDigit lines).all Char.isDigit = true ∧
    (qualityDigitAnchor lines = some (qualityDigit lines) ∨
     aqlScan lines = some (qualityDigit lines) ∨
     qualityDigit lines = chars "753") := by
  cases hq : qualityDigitAnchor lines with
  | some v =>
    have he : qualityDigit lines = v := by
      unfold qualityDigit
      rw [hq]
    rw [he]
    obtain ⟨h1, h2⟩ := qualityDigitAnchor_shape hq
    exact ⟨h1, h2, Or.inl rfl⟩
  | none =>
    cases has : aqlScan lines with
    | some v =>
      have he : qualityDigit lines = v := by
        unfold qualityDigit
        rw [hq, has]
      rw [he]
      obtain ⟨h1, h2⟩ := aqlScan_shape lines v has
      exact ⟨h1, h2, Or.inr (Or.inl rfl)⟩
    | none =>
      have he : qualityDigit lines = chars "753" := by
        unfold qualityDigit
        rw [hq, has]
      rw [he]
      exact ⟨by decide, by decide, Or.inr (Or.inr rfl)⟩

/-- Claim C10, (confirmed): in every Record produced by a successful
extraction, the Quality Digit value is a string of exactly three digit
characters — either the last three digits extracted after the
"Quality Digit" anchor, a three-digit suffix of an "AQL" line, or the
default "753"; never shorter, longer, or empty. -/
theorem c10_quality_digit_three_digits (name text : Str) (h : pdfLines text ≠ []) :
    ∃ v : Str,
      lookupKey (rowOf name text) "Quality Digit" = some v ∧
      v.length = 3 ∧ v.all Char.isDigit = true ∧
      (qualityDigitAnchor (pdfLines text) = some v ∨
       aqlScan (pdfLines text) = some v ∨
       v = chars "753") := by
  refine ⟨qualityDigit (pdfLines text), ?_, ?_, ?_, ?_⟩
  · rw [rowOf_lookup name text _ (by decide) h, data_qualityDigit]
    rfl
  · exact (qualityDigit_shape (pdfLines text)).1
  · exact (qualityDigit_shape (pdfLines text)).2.1
  · exact (qualityDigit_shape (pdfLines text)).2.2

theorem c10_quality_digit_three_digits_witness :
    pdfLines (chars "AQL x 753") ≠ [] ∧
    (∃ v : Str,
      lookupKey (rowOf (chars "f") (chars "AQL x 753")) "Quality Digit" = some v ∧
      v.length = 3 ∧ v.all Char.isDigit = true ∧
      (qualityDigitAnchor (pdfLines (chars "AQL x 753")) = some v ∨
       aqlScan (pdfLines (chars "AQL x 753")) = some v ∨
       v = chars "753")) :=
  ⟨by decide, c10_quality_digit_three_digits (chars "f") (chars "AQL x 753") (by decide)⟩
